import Mathlib

/-!
# Verification of the device-proxy-tts-kokoro-processor bridge

Shallow embedding of the Node.js bridge (`mcp_server.js` and
`kokoro-reverse-client.js`) of the Kokoro TTS processor, together with
proofs and refutations of the frozen specification claims.

Strings from the JavaScript source are modelled either as Lean `String`
(opaque identifiers, messages) or as `List Char` (paths and texts that the
code inspects character by character).  JavaScript truthiness of optional
string / number arguments (`x || default`) is modelled by explicit
`jsOr...` helpers: `undefined`, the empty string, and the number 0 are
falsy.
-/

set_option maxRecDepth 100000

/-- JS `x || d` for an optional string argument: `undefined` and `""` are falsy. -/
def jsOrStr (o : Option String) (d : String) : String :=
  match o with
  | some s => if s = "" then d else s
  | none => d

/-- JS `x || d` for an optional rational (number) argument: `undefined` and `0` are falsy. -/
def jsOrRat (o : Option Rat) (d : Rat) : Rat :=
  match o with
  | some x => if x = 0 then d else x
  | none => d

/-- The character class `\s` of JavaScript regular expressions
(also the set removed by `String.prototype.trim`). -/
def jsWS (c : Char) : Bool :=
  c == '\t' || c == '\n' || c == Char.ofNat 0x0B || c == Char.ofNat 0x0C ||
  c == '\r' || c == ' ' || c.val == 0xA0 || c.val == 0x1680 ||
  (0x2000 ≤ c.val && c.val ≤ 0x200A) || c.val == 0x2028 || c.val == 0x2029 ||
  c.val == 0x202F || c.val == 0x205F || c.val == 0x3000 || c.val == 0xFEFF

/-- JS `String.prototype.trim`: removes whitespace from both ends. -/
def trimJS (l : List Char) : List Char :=
  ((l.dropWhile jsWS).reverse.dropWhile jsWS).reverse

/-- JS `String.prototype.startsWith`. -/
def jsStartsWith (s pat : List Char) : Bool :=
  s.take pat.length == pat

theorem length_dropWhile_le (p : Char → Bool) (l : List Char) :
    (l.dropWhile p).length ≤ l.length := by
  induction l with
  | nil => simp
  | cons a t ih =>
    by_cases h : p a
    · simp only [List.dropWhile_cons, h, if_true]
      exact Nat.le_succ_of_le ih
    · simp [List.dropWhile_cons, h]

theorem trimJS_length_le (l : List Char) : (trimJS l).length ≤ l.length := by
  unfold trimJS
  calc ((l.dropWhile jsWS).reverse.dropWhile jsWS).reverse.length
      = ((l.dropWhile jsWS).reverse.dropWhile jsWS).length := List.length_reverse _
    _ ≤ (l.dropWhile jsWS).reverse.length := length_dropWhile_le _ _
    _ = (l.dropWhile jsWS).length := List.length_reverse _
    _ ≤ l.length := length_dropWhile_le _ _

theorem jsStartsWith_append (pat rest : List Char) :
    jsStartsWith (pat ++ rest) pat = true := by
  simp [jsStartsWith, List.take_left]

/-! ## Path namespace translation

`mcp_server.js` lines 103-120 (and the identical pair in
`kokoro-reverse-client.js` lines 19-36).  `CONTAINER_DATA_PREFIX` is the
fixed container-side root `/app/data`; the host-side root comes from the
environment (`process.env.MP3_HOST_PREFIX || "~/.tts"`) and is therefore a
parameter `hostRoot` here; it is never the empty string because the empty
string is falsy in JS. -/

/-- The container-side data root, the JS constant `CONTAINER_DATA_PREFIX = "/app/data"`. -/
def containerDataRoot : List Char := "/app/data".toList

/-- JS `containerToHostPath`: empty (falsy) paths are returned as is; a path
under the container data root is rebased onto the host root; anything else
is returned unchanged. -/
def containerToHostPath (hostRoot : List Char) (p : List Char) : List Char :=
  if p = [] then p
  else if jsStartsWith p containerDataRoot then
    hostRoot ++ p.drop containerDataRoot.length
  else p

/-- JS `hostToContainerPath`: the inverse rebasing, host root to container root. -/
def hostToContainerPath (hostRoot : List Char) (p : List Char) : List Char :=
  if p = [] then p
  else if jsStartsWith p hostRoot then
    containerDataRoot ++ p.drop hostRoot.length
  else p

/-- C9. Path namespace translation round-trips: a path under the container
data root survives `hostToContainerPath ∘ containerToHostPath`, a path under
the host root survives the opposite composition, and a path under neither
root is left unchanged by both functions. -/
theorem C9_path_roundtrip (hostRoot p q r : List Char)
    (hroot : hostRoot ≠ [])
    (hp : ∃ rest, p = containerDataRoot ++ rest)
    (hq : ∃ rest, q = hostRoot ++ rest)
    (hr1 : jsStartsWith r containerDataRoot = false)
    (hr2 : jsStartsWith r hostRoot = false) :
    hostToContainerPath hostRoot (containerToHostPath hostRoot p) = p ∧
    containerToHostPath hostRoot (hostToContainerPath hostRoot q) = q ∧
    containerToHostPath hostRoot r = r ∧
    hostToContainerPath hostRoot r = r := by
  obtain ⟨restp, rfl⟩ := hp
  obtain ⟨restq, rfl⟩ := hq
  refine ⟨?_, ?_, ?_, ?_⟩
  · have hne : containerDataRoot ++ restp ≠ [] := by
      simp [containerDataRoot]
    rw [containerToHostPath, if_neg hne, if_pos (jsStartsWith_append _ _),
      List.drop_left]
    have hne2 : hostRoot ++ restp ≠ [] := by
      simp [hroot]
    rw [hostToContainerPath, if_neg hne2, if_pos (jsStartsWith_append _ _),
      List.drop_left]
  · have hne : hostRoot ++ restq ≠ [] := by
      simp [hroot]
    rw [hostToContainerPath, if_neg hne, if_pos (jsStartsWith_append _ _),
      List.drop_left]
    have hne2 : containerDataRoot ++ restq ≠ [] := by
      simp [containerDataRoot]
    rw [containerToHostPath, if_neg hne2, if_pos (jsStartsWith_append _ _),
      List.drop_left]
  · rw [containerToHostPath]
    split
    · rfl
    · rw [if_neg]
      simp [hr1]
  · rw [hostToContainerPath]
    split
    · rfl
    · rw [if_neg]
      simp [hr2]

/-- Witness for C9 at the default host root and concrete paths. -/
theorem C9_path_roundtrip_witness :
    ("~/.tts".toList ≠ ([] : List Char) ∧
      (∃ rest, "/app/data/mp3/a.mp3".toList = containerDataRoot ++ rest) ∧
      (∃ rest, "~/.tts/mp3/a.mp3".toList = "~/.tts".toList ++ rest) ∧
      jsStartsWith "/tmp/x".toList containerDataRoot = false ∧
      jsStartsWith "/tmp/x".toList "~/.tts".toList = false) ∧
    (hostToContainerPath "~/.tts".toList
        (containerToHostPath "~/.tts".toList "/app/data/mp3/a.mp3".toList) =
      "/app/data/mp3/a.mp3".toList ∧
    containerToHostPath "~/.tts".toList
        (hostToContainerPath "~/.tts".toList "~/.tts/mp3/a.mp3".toList) =
      "~/.tts/mp3/a.mp3".toList ∧
    containerToHostPath "~/.tts".toList "/tmp/x".toList = "/tmp/x".toList ∧
    hostToContainerPath "~/.tts".toList "/tmp/x".toList = "/tmp/x".toList) :=
  ⟨⟨by decide, ⟨"/mp3/a.mp3".toList, by decide⟩, ⟨"/mp3/a.mp3".toList, by decide⟩,
      by decide, by decide⟩,
    C9_path_roundtrip "~/.tts".toList "/app/data/mp3/a.mp3".toList
      "~/.tts/mp3/a.mp3".toList "/tmp/x".toList (by decide)
      ⟨"/mp3/a.mp3".toList, by decide⟩ ⟨"/mp3/a.mp3".toList, by decide⟩
      (by decide) (by decide)⟩

/-! ## History ring buffer and replay

`mcp_server.js` lines 234-238 (`addToHistory`) and lines 541-553
(the `/api/replay` handler); `kokoro-reverse-client.js` lines 443-462 has
the same replay logic.  `unshift` is modelled by `List.cons` and `pop`
(removing the last element) by `List.dropLast`. -/

/-- JS `addToHistory`: `history.unshift(item); if (history.length > 50) history.pop();`. -/
def addToHistory {α : Type} (item : α) (history : List α) : List α :=
  if (item :: history).length > 50 then (item :: history).dropLast
  else item :: history

theorem addToHistory_length_le {α : Type} (i : α) (h : List α)
    (hl : h.length ≤ 50) : (addToHistory i h).length ≤ 50 := by
  unfold addToHistory
  split
  · simpa using hl
  · next hgt => simp at hgt ⊢; omega

theorem dropLast_cons_of_ne_nil {α : Type} (a : α) (l : List α) (h : l ≠ []) :
    (a :: l).dropLast = a :: l.dropLast := by
  cases l with
  | nil => exact absurd rfl h
  | cons b t => simp [List.dropLast]

theorem foldl_addToHistory_length {α : Type} (items : List α) :
    ∀ h : List α, h.length ≤ 50 →
      (items.foldl (fun h i => addToHistory i h) h).length ≤ 50 := by
  induction items with
  | nil => intro h hl; simpa using hl
  | cons a t ih =>
    intro h hl
    exact ih _ (addToHistory_length_le a h hl)

theorem addToHistory_head {α : Type} (i : α) (h : List α) :
    (addToHistory i h).head? = some i := by
  cases h with
  | nil => simp [addToHistory]
  | cons b t =>
    unfold addToHistory
    split
    · simp [List.dropLast]
    · simp

/-- C6. The history list never exceeds 50 entries under any sequence of
insertions starting from the empty history; after each insertion the newest
entry sits at index 0; and inserting the 51 items `0, 1, ..., 50` leaves
exactly `[50, 49, ..., 1]`: the oldest item `0` has been evicted. -/
theorem C6_history_ring :
    (∀ items : List Nat,
      ((items.foldl (fun h i => addToHistory i h) []).length ≤ 50)) ∧
    (∀ (i : Nat) (h : List Nat), (addToHistory i h).head? = some i) ∧
    ((List.range 51).foldl (fun h i => addToHistory i h) [] =
      ((List.range 51).drop 1).reverse) := by
  refine ⟨fun items => foldl_addToHistory_length items [] (by simp),
    fun i h => addToHistory_head i h, by decide⟩

/-- One queued synthesis request, the payload written to the processor on
stdin (the fields assembled by `speakToolHandler` / `buildSpeakPayload`). -/
structure SpeakPayload where
  id : String
  text : String
  voice : String
  speed : Rat
  mp3 : Bool
  mp3_path : Option (List Char)
  mp3announce : Bool
deriving DecidableEq

/-- A history entry: the payload plus the insertion timestamp
(`{...payload, timestamp: new Date().toISOString()}`). -/
structure HistItem extends SpeakPayload where
  timestamp : String
deriving DecidableEq

/-- JS `/api/replay` handler (and the reverse-client `replay` tool): look the
item up by id; on a miss answer 404 (`none`); on a hit build
`{...item, id: newId}`, add `{...payload, timestamp: now}` to the history and
write the payload to the processor. `newId` stands for the fresh `uuidv4()`. -/
def apiReplay (history : List HistItem) (reqId newId now : String) :
    Option (HistItem × List HistItem) :=
  match history.find? (fun i => i.id == reqId) with
  | none => none
  | some item =>
    let payload := { item with id := newId }
    some (payload, addToHistory { payload with timestamp := now } history)

/-- C7. Replaying an existing history entry enqueues a payload with the very
same text, voice and speed, under the fresh id (distinct from the original
id as `uuidv4` guarantees), and the original entry is not mutated: the new
history is the clone consed onto the untouched old history (minus at most
its last entry when the buffer is full). -/
theorem C7_replay (history : List HistItem) (reqId newId now : String)
    (item : HistItem)
    (hfind : history.find? (fun i => i.id == reqId) = some item)
    (hfresh : newId ≠ item.id) :
    ∃ payload h2, apiReplay history reqId newId now = some (payload, h2) ∧
      payload.text = item.text ∧ payload.voice = item.voice ∧
      payload.speed = item.speed ∧ payload.id = newId ∧ payload.id ≠ item.id ∧
      (h2 = { payload with timestamp := now } :: history ∨
       h2 = { payload with timestamp := now } :: history.dropLast) := by
  have hpay : apiReplay history reqId newId now =
      some ({ item with id := newId },
        addToHistory
          { ({ item with id := newId } : HistItem) with timestamp := now }
          history) := by
    unfold apiReplay
    rw [hfind]
  refine ⟨{ item with id := newId },
    addToHistory
      { ({ item with id := newId } : HistItem) with timestamp := now } history,
    hpay, rfl, rfl, rfl, rfl, hfresh, ?_⟩
  unfold addToHistory
  split
  · next hgt =>
    right
    have hne : history ≠ [] := by
      intro hcon
      rw [hcon] at hgt
      simp at hgt
    rw [dropLast_cons_of_ne_nil _ _ hne]
  · left
    rfl

/-- Witness for C7 on a one-entry history. -/
theorem C7_replay_witness :
    ([⟨⟨"a1", "hello", "af_heart", 1, false, none, false⟩, "t0"⟩].find?
        (fun i : HistItem => i.id == "a1") =
      some ⟨⟨"a1", "hello", "af_heart", 1, false, none, false⟩, "t0"⟩ ∧
      ("b2" : String) ≠ "a1") ∧
    (∃ payload h2,
      apiReplay [⟨⟨"a1", "hello", "af_heart", 1, false, none, false⟩, "t0"⟩]
          "a1" "b2" "t1" = some (payload, h2) ∧
      payload.text = "hello" ∧ payload.voice = "af_heart" ∧
      payload.speed = 1 ∧ payload.id = "b2" ∧ payload.id ≠ "a1" ∧
      (h2 = { payload with timestamp := "t1" } ::
          [⟨⟨"a1", "hello", "af_heart", 1, false, none, false⟩, "t0"⟩] ∨
       h2 = { payload with timestamp := "t1" } ::
          [⟨⟨"a1", "hello", "af_heart", 1, false, none, false⟩,
            "t0"⟩].dropLast)) :=
  ⟨⟨by decide, by decide⟩,
    C7_replay [⟨⟨"a1", "hello", "af_heart", 1, false, none, false⟩, "t0"⟩]
      "a1" "b2" "t1" ⟨⟨"a1", "hello", "af_heart", 1, false, none, false⟩, "t0"⟩
      (by decide) (by decide)⟩

/-! ## Voices and the speak tool handler

`kokoro-reverse-client.js` lines 39-51 (`AVAILABLE_VOICES`), lines 347-367
(the `set_default_voice` tool) and `mcp_server.js` lines 250-279
(`speakToolHandler`).  `uuidv4()` and the timestamp-derived auto path are
external inputs and appear as the parameters `freshId` / `autoPath`. -/

/-- One entry of the JS `AVAILABLE_VOICES` table. -/
structure Voice where
  id : String
  name : String
  gender : String
  accent : String
  description : String
deriving DecidableEq

/-- The closed 11-voice enumeration `AVAILABLE_VOICES`. -/
def AVAILABLE_VOICES : List Voice :=
  [⟨"af_heart", "Heart", "female", "american", "Warm, expressive female voice (default)"⟩,
   ⟨"af_bella", "Bella", "female", "american", "Smooth, confident female voice"⟩,
   ⟨"af_nicole", "Nicole", "female", "american", "Clear, professional female voice"⟩,
   ⟨"af_sarah", "Sarah", "female", "american", "Friendly, conversational female voice"⟩,
   ⟨"af_sky", "Sky", "female", "american", "Light, airy female voice"⟩,
   ⟨"am_adam", "Adam", "male", "american", "Deep, authoritative male voice"⟩,
   ⟨"am_michael", "Michael", "male", "american", "Balanced, natural male voice"⟩,
   ⟨"bf_emma", "Emma", "female", "british", "Elegant British female voice"⟩,
   ⟨"bf_isabella", "Isabella", "female", "british", "Refined British female voice"⟩,
   ⟨"bm_george", "George", "male", "british", "Distinguished British male voice"⟩,
   ⟨"bm_lewis", "Lewis", "male", "british", "Warm British male voice"⟩]

/-- The arguments accepted by the `speak` tool. -/
structure SpeakArgs where
  text : String
  voice : Option String := none
  speed : Option Rat := none
  mp3 : Option Bool := none
  mp3_path : Option (List Char) := none
  mp3announce : Option Bool := none

/-- JS `speakToolHandler`: defaults are applied (`voice || state.default_voice`,
`speed || 1.0`, `mp3 || false`, `mp3announce || false`), a host-namespace
`mp3_path` is translated, an absent path is auto-generated when `mp3` is set,
and the payload is written to the processor stdin unconditionally — there is
no validation branch of any kind, in particular none for the voice name.
Returns the payload together with the result text of the tool call. -/
def speakToolHandler (args : SpeakArgs) (default_voice : String)
    (freshId : String) (autoPath : List Char) (hostRoot : List Char)
    (now : String) (history : List HistItem) :
    SpeakPayload × List HistItem × String :=
  let selectedVoice := jsOrStr args.voice default_voice
  let selectedSpeed := jsOrRat args.speed 1
  let mp3v := args.mp3.getD false
  let resolved : Option (List Char) :=
    match args.mp3_path with
    | some p => if p = [] then none else some (hostToContainerPath hostRoot p)
    | none => none
  let resolved2 := if mp3v ∧ resolved = none then some autoPath else resolved
  let payload : SpeakPayload :=
    { id := freshId, text := args.text, voice := selectedVoice,
      speed := selectedSpeed, mp3 := mp3v, mp3_path := resolved2,
      mp3announce := args.mp3announce.getD false }
  let resultText :=
    if mp3v then "MP3 will be saved to the reported host path"
    else "Request sent to processor"
  (payload, addToHistory (⟨payload, now⟩ : HistItem) history, resultText)

/-- Membership of a voice name in the closed enumeration. -/
def isKnownVoice (voice : String) : Bool :=
  (AVAILABLE_VOICES.find? (fun v => v.id == voice)).isSome

/-- JS `set_default_voice` tool handler: rejects a missing/empty voice id and
an id outside `AVAILABLE_VOICES` (leaving the default unchanged), otherwise
updates the default voice.  Returns the new default and the reply text. -/
def set_default_voice (voice : String) (default_voice : String) :
    String × String :=
  if voice = "" then (default_voice, "Error: voice ID is required")
  else
    match AVAILABLE_VOICES.find? (fun v => v.id == voice) with
    | none =>
      (default_voice,
        "Unknown voice \x22" ++ voice ++ "\x22. Use list_voices to see available options.")
    | some known =>
      (voice,
        "Default voice changed from \x22" ++ default_voice ++ "\x22 to \x22" ++
          voice ++ "\x22 (" ++ known.name ++ ")")

/-- C4 counterexample: the voice name `xx_bogus` is outside the 11-voice
enumeration, yet `speakToolHandler` enqueues the request with exactly that
voice and reports success — the dispatcher performs no voice validation at
all, refuting the claim at this concrete input. -/
theorem C4_counterexample :
    isKnownVoice "xx_bogus" = false ∧
    (speakToolHandler { text := "hello", voice := some "xx_bogus" } "af_heart"
        "id1" "/app/data/mp3/auto.mp3".toList "~/.tts".toList "t0"
        []).1.voice = "xx_bogus" ∧
    (speakToolHandler { text := "hello", voice := some "xx_bogus" } "af_heart"
        "id1" "/app/data/mp3/auto.mp3".toList "~/.tts".toList "t0" []).2.2 =
      "Request sent to processor" := by
  refine ⟨by decide, ?_, ?_⟩ <;> rfl

/-- C4 amended: speak requests are not validated against the voice
enumeration — the handler always enqueues, passing any non-empty voice name
through verbatim (an absent or empty voice falls back to the default).  The
enumeration is enforced only by `set_default_voice` (and `preview_voice`),
which rejects an unknown id with a descriptive error and leaves the default
voice unchanged, and accepts a known id. -/
theorem C4_amended :
    (∀ (args : SpeakArgs) (dflt freshId : String)
      (autoPath hostRoot : List Char) (now : String) (history : List HistItem),
      (speakToolHandler args dflt freshId autoPath hostRoot now
        history).1.voice = jsOrStr args.voice dflt) ∧
    (∀ voice dflt : String, voice ≠ "" →
      AVAILABLE_VOICES.find? (fun v => v.id == voice) = none →
      set_default_voice voice dflt =
        (dflt, "Unknown voice \x22" ++ voice ++
          "\x22. Use list_voices to see available options.")) ∧
    (∀ voice dflt : String, ∀ known : Voice, voice ≠ "" →
      AVAILABLE_VOICES.find? (fun v => v.id == voice) = some known →
      (set_default_voice voice dflt).1 = voice) := by
  refine ⟨fun args dflt freshId autoPath hostRoot now history => rfl, ?_, ?_⟩
  · intro voice dflt hne hfind
    unfold set_default_voice
    rw [if_neg hne, hfind]
  · intro voice dflt known hne hfind
    unfold set_default_voice
    rw [if_neg hne, hfind]

/-- Witness for C4 amended at concrete inputs. -/
theorem C4_amended_witness :
    (("zz_nope" : String) ≠ "" ∧
      AVAILABLE_VOICES.find? (fun v => v.id == "zz_nope") = none ∧
      ("am_adam" : String) ≠ "" ∧
      AVAILABLE_VOICES.find? (fun v => v.id == "am_adam") =
        some ⟨"am_adam", "Adam", "male", "american", "Deep, authoritative male voice"⟩) ∧
    ((speakToolHandler { text := "hi", voice := some "zz_nope" } "af_heart"
        "id2" [] [] "t0" []).1.voice = jsOrStr (some "zz_nope") "af_heart" ∧
      set_default_voice "zz_nope" "af_heart" =
        ("af_heart", "Unknown voice \x22zz_nope\x22. Use list_voices to see available options.") ∧
      (set_default_voice "am_adam" "af_heart").1 = "am_adam") :=
  ⟨⟨by decide, by decide, by decide, by decide⟩,
    C4_amended.1 { text := "hi", voice := some "zz_nope" } "af_heart" "id2"
      [] [] "t0" [],
    C4_amended.2.1 "zz_nope" "af_heart" (by decide) (by decide),
    C4_amended.2.2 "am_adam" "af_heart"
      ⟨"am_adam", "Adam", "male", "american", "Deep, authoritative male voice"⟩
      (by decide) (by decide)⟩

/-! ## Splitting long text into sections

`mcp_server.js` lines 446-476 (`splitTextIntoSections`); the identical copy
`splitTextForCombine` sits in `kokoro-reverse-client.js` lines 127-155.

The two regular expressions are embedded as fuel-indexed scanners over
`List Char`:

* `text.split(/\n\s*\n/)` — a separator match starts at a `'\n'`; the greedy
  `\s*` followed by the final backtracking `\n` means the match extends to
  the **last** newline of the maximal whitespace run that starts there.
* `para.split(/(?<=[.!?])\s+/)` — a separator match is a maximal whitespace
  run whose preceding character is `.`, `!` or `?`.

The fuel starts at `length + 1`; every recursive call consumes at least one
character, so the fuel never runs out on the initial call. -/

/-- Scanner for `split(/\n\s*\n/)`.  `acc` is the reversed current field. -/
def paraSplitAux : Nat → List Char → List Char → List (List Char)
  | _, [], acc => [acc.reverse]
  | 0, cs, acc => [acc.reverse ++ cs]
  | fuel + 1, c :: rest, acc =>
    if c = '\n' then
      let w := rest.takeWhile jsWS
      if w.any (fun d => d = '\n') then
        -- the separator eats up to (and including) the last newline of the
        -- whitespace run; whatever whitespace follows it stays in the text
        let keep := (w.reverse.takeWhile (fun d => ¬ d = '\n')).reverse
        acc.reverse :: paraSplitAux fuel (keep ++ rest.dropWhile jsWS) []
      else
        paraSplitAux fuel rest (c :: acc)
    else
      paraSplitAux fuel rest (c :: acc)

/-- JS `text.split(/\n\s*\n/)`. -/
def paraSplit (cs : List Char) : List (List Char) :=
  paraSplitAux (cs.length + 1) cs []

/-- Scanner for `split(/(?<=[.!?])\s+/)`: `prevPunct` records whether the
character before the scan position is `.`, `!` or `?` (the lookbehind). -/
def sentSplitAux : Nat → Bool → List Char → List Char → List (List Char)
  | _, _, [], acc => [acc.reverse]
  | 0, _, cs, acc => [acc.reverse ++ cs]
  | fuel + 1, prevPunct, c :: rest, acc =>
    if prevPunct ∧ jsWS c then
      acc.reverse :: sentSplitAux fuel false (rest.dropWhile jsWS) []
    else
      sentSplitAux fuel (c = '.' ∨ c = '!' ∨ c = '?') rest (c :: acc)

/-- JS `para.split(/(?<=[.!?])\s+/)`. -/
def sentSplit (cs : List Char) : List (List Char) :=
  sentSplitAux (cs.length + 1) false cs []

/-- The paragraphs the splitter iterates over:
`text.split(/\n\s*\n/).filter(p => p.trim().length > 0)`. -/
def paragraphsOf (text : List Char) : List (List Char) :=
  (paraSplit text).filter (fun p => decide (0 < (trimJS p).length))

/-- The guard-and-flush at the top of both loop bodies of
`splitTextIntoSections`: `if (current.length + piece.length + pad > maxChars
&& current.length > 0) { sections.push(current.trim()); current = ""; }`.
`extra` is `piece.length + pad` (pad is 2 for paragraphs, 1 for sentences).
The state is the pair `(sections, current)`. -/
def flushIfOverflow (maxChars extra : Nat)
    (st : List (List Char) × List Char) : List (List Char) × List Char :=
  if st.2.length + extra > maxChars ∧ st.2.length > 0 then
    (st.1 ++ [trimJS st.2], ([] : List Char))
  else st

/-- The unconditional flush before sentence-splitting an oversized paragraph:
`if (current.length > 0) { sections.push(current.trim()); current = ""; }`. -/
def flushCurrent (st : List (List Char) × List Char) :
    List (List Char) × List Char :=
  if st.2.length > 0 then (st.1 ++ [trimJS st.2], ([] : List Char)) else st

/-- One step of the inner sentence loop of `splitTextIntoSections`:
the flush guard followed by `current += (current ? " " : "") + sentence`. -/
def sentStep (maxChars : Nat) (st : List (List Char) × List Char)
    (sentence : List Char) : List (List Char) × List Char :=
  ((flushIfOverflow maxChars (sentence.length + 1) st).1,
    if (flushIfOverflow maxChars (sentence.length + 1) st).2 = [] then sentence
    else (flushIfOverflow maxChars (sentence.length + 1) st).2 ++ ' ' :: sentence)

/-- One step of the outer paragraph loop of `splitTextIntoSections`: the
flush guard; then either the sentence loop (for an oversized paragraph,
after flushing any pending text) or
`current += (current ? "\n\n" : "") + para`. -/
def paraStep (maxChars : Nat) (st : List (List Char) × List Char)
    (para : List Char) : List (List Char) × List Char :=
  if para.length > maxChars then
    (sentSplit para).foldl (sentStep maxChars)
      (flushCurrent (flushIfOverflow maxChars (para.length + 2) st))
  else
    ((flushIfOverflow maxChars (para.length + 2) st).1,
      if (flushIfOverflow maxChars (para.length + 2) st).2 = [] then para
      else (flushIfOverflow maxChars (para.length + 2) st).2 ++
        '\n' :: '\n' :: para)

/-- The final flush after the paragraph loop:
`if (current.trim().length > 0) sections.push(current.trim());`. -/
def finalFlush (st : List (List Char) × List Char) : List (List Char) :=
  if 0 < (trimJS st.2).length then st.1 ++ [trimJS st.2] else st.1

/-- JS `splitTextIntoSections(text, maxChars)`. -/
def splitTextIntoSections (text : List Char) (maxChars : Nat) :
    List (List Char) :=
  if text.length ≤ maxChars then [text]
  else
    if 0 < (finalFlush ((paragraphsOf text).foldl (paraStep maxChars)
        ([], []))).length then
      finalFlush ((paragraphsOf text).foldl (paraStep maxChars) ([], []))
    else [text]

theorem dropWhile_all_false {p : Char → Bool} (l : List Char)
    (h : ∀ c ∈ l, p c = false) : l.dropWhile p = l := by
  cases l with
  | nil => rfl
  | cons a t => rw [List.dropWhile_cons, h a (by simp)]; simp

theorem trimJS_all_false (l : List Char) (h : ∀ c ∈ l, jsWS c = false) :
    trimJS l = l := by
  unfold trimJS
  rw [dropWhile_all_false l h,
    dropWhile_all_false _ (by intro c hc; exact h c (by simpa using hc)),
    List.reverse_reverse]

theorem paraSplitAux_no_newline :
    ∀ (cs : List Char) (fuel : Nat) (acc : List Char), cs.length ≤ fuel →
      '\n' ∉ cs → paraSplitAux fuel cs acc = [acc.reverse ++ cs] := by
  intro cs
  induction cs with
  | nil =>
    intro fuel acc _ _
    cases fuel <;> simp [paraSplitAux]
  | cons c rest ih =>
    intro fuel acc hf hnl
    obtain ⟨f, rfl⟩ : ∃ f, fuel = f + 1 := ⟨fuel - 1, by simp at hf; omega⟩
    have hc : ¬ c = '\n' := by
      intro hcc
      exact hnl (hcc ▸ List.mem_cons_self c rest)
    simp only [paraSplitAux]
    rw [if_neg hc,
      ih f (c :: acc) (by simp at hf ⊢; omega)
        (fun hmem => hnl (List.mem_cons_of_mem c hmem))]
    simp

theorem sentSplitAux_no_ws :
    ∀ (cs : List Char) (fuel : Nat) (b : Bool) (acc : List Char),
      cs.length ≤ fuel → (∀ c ∈ cs, jsWS c = false) →
      sentSplitAux fuel b cs acc = [acc.reverse ++ cs] := by
  intro cs
  induction cs with
  | nil =>
    intro fuel b acc _ _
    cases fuel <;> simp [sentSplitAux]
  | cons c rest ih =>
    intro fuel b acc hf hws
    obtain ⟨f, rfl⟩ : ∃ f, fuel = f + 1 := ⟨fuel - 1, by simp at hf; omega⟩
    simp only [sentSplitAux]
    rw [if_neg (by simp [hws c (by simp)]),
      ih f _ (c :: acc) (by simp at hf ⊢; omega)
        (fun d hmem => hws d (List.mem_cons_of_mem c hmem))]
    simp


theorem splitTextIntoSections_single (text : List Char) (maxChars : Nat)
    (hnl : '\n' ∉ text) (hws : ∀ c ∈ text, jsWS c = false)
    (hbig : maxChars < text.length) :
    splitTextIntoSections text maxChars = [text] := by
  have htrim : trimJS text = text := trimJS_all_false _ hws
  have hpos : 0 < (trimJS text).length := by
    rw [htrim]
    omega
  have hps : paraSplit text = [text] := by
    unfold paraSplit
    rw [paraSplitAux_no_newline _ _ _ (by omega) hnl]
    simp
  have hparas : paragraphsOf text = [text] := by
    unfold paragraphsOf
    rw [hps]
    simp [List.filter_cons, hpos]
  have hsent : sentSplit text = [text] := by
    unfold sentSplit
    rw [sentSplitAux_no_ws _ _ _ _ (by omega) hws]
    simp
  have hstep : paraStep maxChars ([], []) text = ([], text) := by
    unfold paraStep
    rw [if_pos hbig]
    have h1 : flushIfOverflow maxChars (text.length + 2) ([], []) = ([], []) := by
      unfold flushIfOverflow
      rw [if_neg]
      simp
    have h2 : flushCurrent (([], []) : List (List Char) × List Char) =
        ([], []) := by
      unfold flushCurrent
      simp
    rw [h1, h2, hsent]
    simp only [List.foldl_cons, List.foldl_nil]
    unfold sentStep
    have h3 : flushIfOverflow maxChars (text.length + 1) ([], []) = ([], []) := by
      unfold flushIfOverflow
      rw [if_neg]
      simp
    rw [h3]
    simp
  unfold splitTextIntoSections
  rw [if_neg (by omega), hparas]
  simp only [List.foldl_cons, List.foldl_nil]
  rw [hstep]
  unfold finalFlush
  rw [if_pos hpos, htrim]
  simp

/-- C5 counterexample: the 12,000-character document consisting of 12,000
copies of `a` — no paragraph boundary, no sentence boundary anywhere — is
returned as one single section by `splitTextIntoSections` with
`max_chars_per_section = 5000`, refuting the claimed lower bound of 3
sections. -/
theorem C5_counterexample :
    ¬ (3 ≤ (splitTextIntoSections (List.replicate 12000 'a') 5000).length) := by
  have hnws : ∀ c ∈ List.replicate 12000 'a', jsWS c = false := by
    intro c hc
    rw [List.eq_of_mem_replicate hc]
    decide
  have hnnl : '\n' ∉ List.replicate 12000 'a' := by
    intro hc
    exact absurd (List.eq_of_mem_replicate hc) (by decide)
  have h := splitTextIntoSections_single (List.replicate 12000 'a') 5000 hnnl
    hnws (by rw [List.length_replicate]; omega)
  rw [h, List.length_singleton]
  omega

/-- An already-emitted section is fine when it fits the budget or is the
trimmed text of one single sentence of one of the paragraphs. -/
def SecOk (maxChars : Nat) (paras : List (List Char)) (s : List Char) : Prop :=
  s.length ≤ maxChars ∨
    ∃ para ∈ paras, ∃ sent ∈ sentSplit para, s = trimJS sent

/-- The pending `current` text is fine when it fits the budget or is one
single (untrimmed) sentence of one of the paragraphs. -/
def CurOk (maxChars : Nat) (paras : List (List Char)) (c : List Char) : Prop :=
  c.length ≤ maxChars ∨ ∃ para ∈ paras, c ∈ sentSplit para

/-- Loop invariant of `splitTextIntoSections`. -/
def SplitInv (maxChars : Nat) (paras : List (List Char))
    (st : List (List Char) × List Char) : Prop :=
  (∀ s ∈ st.1, SecOk maxChars paras s) ∧ CurOk maxChars paras st.2

theorem secOk_of_curOk {mc : Nat} {paras : List (List Char)} {c : List Char}
    (h : CurOk mc paras c) : SecOk mc paras (trimJS c) := by
  rcases h with h | ⟨para, hp, hc⟩
  · exact Or.inl (le_trans (trimJS_length_le c) h)
  · exact Or.inr ⟨para, hp, c, hc, rfl⟩

theorem flushIfOverflow_inv {mc : Nat} {paras : List (List Char)} (e : Nat)
    {st : List (List Char) × List Char} (h : SplitInv mc paras st) :
    SplitInv mc paras (flushIfOverflow mc e st) := by
  obtain ⟨hsec, hcur⟩ := h
  unfold flushIfOverflow
  split
  · refine ⟨?_, Or.inl (by simp)⟩
    intro s hs
    rcases List.mem_append.mp hs with hmem | hmem
    · exact hsec s hmem
    · rw [List.mem_singleton.mp hmem]
      exact secOk_of_curOk hcur
  · exact ⟨hsec, hcur⟩

theorem flushCurrent_inv {mc : Nat} {paras : List (List Char)}
    {st : List (List Char) × List Char} (h : SplitInv mc paras st) :
    SplitInv mc paras (flushCurrent st) := by
  obtain ⟨hsec, hcur⟩ := h
  unfold flushCurrent
  split
  · refine ⟨?_, Or.inl (by simp)⟩
    intro s hs
    rcases List.mem_append.mp hs with hmem | hmem
    · exact hsec s hmem
    · rw [List.mem_singleton.mp hmem]
      exact secOk_of_curOk hcur
  · exact ⟨hsec, hcur⟩

theorem flushIfOverflow_nonempty (mc e : Nat)
    (st : List (List Char) × List Char)
    (h : (flushIfOverflow mc e st).2 ≠ []) :
    flushIfOverflow mc e st = st ∧ st.2.length + e ≤ mc := by
  by_cases hg : st.2.length + e > mc ∧ st.2.length > 0
  · exfalso
    apply h
    unfold flushIfOverflow
    rw [if_pos hg]
  · have heq : flushIfOverflow mc e st = st := by
      unfold flushIfOverflow
      rw [if_neg hg]
    refine ⟨heq, ?_⟩
    have hne : st.2 ≠ [] := by
      intro hcon
      apply h
      rw [heq, hcon]
    have hB : st.2.length > 0 := List.length_pos.mpr hne
    by_cases hA : st.2.length + e > mc
    · exact absurd ⟨hA, hB⟩ hg
    · omega

theorem sentStep_inv {mc : Nat} {paras : List (List Char)} {para : List Char}
    (hp : para ∈ paras) (st : List (List Char) × List Char) (sent : List Char)
    (hs : sent ∈ sentSplit para) (h : SplitInv mc paras st) :
    SplitInv mc paras (sentStep mc st sent) := by
  have h1 := flushIfOverflow_inv (sent.length + 1) h
  obtain ⟨hsec1, hcur1⟩ := h1
  unfold sentStep
  by_cases he : (flushIfOverflow mc (sent.length + 1) st).2 = []
  · rw [if_pos he]
    exact ⟨hsec1, Or.inr ⟨para, hp, hs⟩⟩
  · rw [if_neg he]
    obtain ⟨heq, hle⟩ := flushIfOverflow_nonempty mc (sent.length + 1) st he
    refine ⟨hsec1, Or.inl ?_⟩
    rw [heq]
    simp only [List.length_append, List.length_cons]
    omega

theorem sentFold_inv {mc : Nat} {paras : List (List Char)} {para : List Char}
    (hp : para ∈ paras) :
    ∀ L : List (List Char), (∀ x ∈ L, x ∈ sentSplit para) →
      ∀ st, SplitInv mc paras st →
        SplitInv mc paras (L.foldl (sentStep mc) st) := by
  intro L
  induction L with
  | nil =>
    intro _ st h
    simpa using h
  | cons x xs ih =>
    intro hmem st h
    simp only [List.foldl_cons]
    exact ih (fun y hy => hmem y (List.mem_cons_of_mem x hy)) _
      (sentStep_inv hp st x (hmem x (List.mem_cons_self x xs)) h)

theorem paraStep_inv {mc : Nat} {paras : List (List Char)}
    (st : List (List Char) × List Char) (para : List Char) (hp : para ∈ paras)
    (h : SplitInv mc paras st) : SplitInv mc paras (paraStep mc st para) := by
  unfold paraStep
  by_cases hbig : para.length > mc
  · rw [if_pos hbig]
    exact sentFold_inv hp (sentSplit para) (fun x hx => hx) _
      (flushCurrent_inv (flushIfOverflow_inv (para.length + 2) h))
  · rw [if_neg hbig]
    have h1 := flushIfOverflow_inv (para.length + 2) h
    obtain ⟨hsec1, hcur1⟩ := h1
    by_cases he : (flushIfOverflow mc (para.length + 2) st).2 = []
    · rw [if_pos he]
      refine ⟨hsec1, Or.inl ?_⟩
      dsimp only
      omega
    · rw [if_neg he]
      obtain ⟨heq, hle⟩ := flushIfOverflow_nonempty mc (para.length + 2) st he
      refine ⟨hsec1, Or.inl ?_⟩
      rw [heq]
      simp only [List.length_append, List.length_cons]
      omega

theorem paraFold_inv {mc : Nat} {paras : List (List Char)} :
    ∀ L : List (List Char), (∀ p ∈ L, p ∈ paras) →
      ∀ st, SplitInv mc paras st →
        SplitInv mc paras (L.foldl (paraStep mc) st) := by
  intro L
  induction L with
  | nil =>
    intro _ st h
    simpa using h
  | cons x xs ih =>
    intro hmem st h
    simp only [List.foldl_cons]
    exact ih (fun y hy => hmem y (List.mem_cons_of_mem x hy)) _
      (paraStep_inv st x (hmem x (List.mem_cons_self x xs)) h)

/-- C5 amended: splitting a 12,000-character document with
`max_chars_per_section = 5000` yields at least one section (but possibly
fewer than three, see the counterexample), and every returned section longer
than 5000 characters is either the trimmed text of one single sentence that
alone exceeds the budget, or the whole unsplit document (returned when no
non-blank section was produced). -/
theorem C5_amended (text : List Char) (h12 : text.length = 12000) :
    1 ≤ (splitTextIntoSections text 5000).length ∧
    ∀ s ∈ splitTextIntoSections text 5000, 5000 < s.length →
      (∃ para ∈ paragraphsOf text, ∃ sent ∈ sentSplit para,
        s = trimJS sent ∧ 5000 < sent.length) ∨ s = text := by
  have hnle : ¬ (text.length ≤ 5000) := by omega
  constructor
  · unfold splitTextIntoSections
    rw [if_neg hnle]
    split
    · next hpos => omega
    · simp
  · intro s hs hbig
    have hInv : SplitInv 5000 (paragraphsOf text)
        ((paragraphsOf text).foldl (paraStep 5000) ([], [])) :=
      paraFold_inv (paragraphsOf text) (fun p hp => hp) ([], [])
        ⟨by simp, Or.inl (by simp)⟩
    have hall : ∀ t ∈ finalFlush ((paragraphsOf text).foldl (paraStep 5000)
        ([], [])), SecOk 5000 (paragraphsOf text) t := by
      obtain ⟨hsec, hcur⟩ := hInv
      unfold finalFlush
      split
      · intro t ht
        rcases List.mem_append.mp ht with hmem | hmem
        · exact hsec t hmem
        · rw [List.mem_singleton.mp hmem]
          exact secOk_of_curOk hcur
      · exact hsec
    revert hs
    unfold splitTextIntoSections
    rw [if_neg hnle]
    split
    · intro hs
      rcases hall s hs with hle | ⟨para, hp, sent, hsent, rfl⟩
      · omega
      · exact Or.inl ⟨para, hp, sent, hsent, rfl,
          lt_of_lt_of_le hbig (trimJS_length_le sent)⟩
    · intro hs
      exact Or.inr (List.mem_singleton.mp hs)

/-- Witness for C5 amended at the document of 12,000 `a`s. -/
theorem C5_amended_witness :
    (List.replicate 12000 'a').length = 12000 ∧
    (1 ≤ (splitTextIntoSections (List.replicate 12000 'a') 5000).length ∧
    ∀ s ∈ splitTextIntoSections (List.replicate 12000 'a') 5000,
      5000 < s.length →
      (∃ para ∈ paragraphsOf (List.replicate 12000 'a'),
        ∃ sent ∈ sentSplit para, s = trimJS sent ∧ 5000 < sent.length) ∨
      s = List.replicate 12000 'a') :=
  ⟨by rw [List.length_replicate],
    C5_amended (List.replicate 12000 'a') (by rw [List.length_replicate])⟩

/-! ## The stdout message loop and JSON parsing

`mcp_server.js` lines 140-151: each chunk of processor stdout is split on
newlines; blank lines are skipped; every other line goes through
`JSON.parse` inside a `try` — on success the parsed value is handed to
`handlePythonMessage`, on any exception (parse failure, or the handler
itself throwing, as it does on the JSON value `null` whose `.type` access
raises a `TypeError`) the line is logged as `[Python Log]` diagnostic
output.

`JSON.parse` is an external library routine; it is modelled here by an
executable recursive-descent recogniser of the JSON grammar (strings with
the basic escapes but without `\uXXXX`, numbers kept as lexemes, arrays,
objects).  The subset is only relevant to *which* lines parse; the claims
concern the routing of parsed versus unparsable lines. -/

/-- A JavaScript value produced by `JSON.parse`. -/
inductive JVal where
  | jnull
  | jbool (b : Bool)
  | jnum (lexeme : List Char)
  | jstr (s : List Char)
  | jarr (elems : List JVal)
  | jobj (fields : List (List Char × JVal))

/-- JSON insignificant whitespace: space, tab, line feed, carriage return. -/
def jsonWS (c : Char) : Bool :=
  c.val == 0x20 || c.val == 0x09 || c.val == 0x0A || c.val == 0x0D

/-- Skip JSON whitespace. -/
def skipJWS (cs : List Char) : List Char := cs.dropWhile jsonWS

/-- The characters named by the simple JSON escapes; `\uXXXX` is outside
this model's subset. -/
def jsonEscapeChar (e : Char) : Option Char :=
  if e == '"' then some '"'
  else if e == '\\' then some '\\'
  else if e == '/' then some '/'
  else if e == 'b' then some (Char.ofNat 0x08)
  else if e == 'f' then some (Char.ofNat 0x0C)
  else if e == 'n' then some '\n'
  else if e == 'r' then some '\r'
  else if e == 't' then some '\t'
  else none

/-- The body of a JSON string after the opening quote; returns the decoded
characters and the remaining input after the closing quote. -/
def parseStringBody : List Char → Option (List Char × List Char)
  | [] => none
  | '"' :: rest => some ([], rest)
  | '\\' :: e :: rest =>
    (jsonEscapeChar e).bind
      (fun c => (parseStringBody rest).map
        (fun p : List Char × List Char => (c :: p.1, p.2)))
  | c :: rest =>
    if c.val < 0x20 then none
    else (parseStringBody rest).map
      (fun p : List Char × List Char => (c :: p.1, p.2))

/-- The optional fraction part of a JSON number. -/
def parseFrac (cs : List Char) : Option (List Char × List Char) :=
  match cs with
  | '.' :: t =>
    if (t.takeWhile Char.isDigit).isEmpty then none
    else some ('.' :: t.takeWhile Char.isDigit, t.dropWhile Char.isDigit)
  | _ => some ([], cs)

/-- The optional exponent part of a JSON number. -/
def parseExp (cs : List Char) : Option (List Char × List Char) :=
  match cs with
  | c :: t =>
    if c == 'e' || c == 'E' then
      match t with
      | '+' :: u =>
        if (u.takeWhile Char.isDigit).isEmpty then none
        else some (c :: '+' :: u.takeWhile Char.isDigit, u.dropWhile Char.isDigit)
      | '-' :: u =>
        if (u.takeWhile Char.isDigit).isEmpty then none
        else some (c :: '-' :: u.takeWhile Char.isDigit, u.dropWhile Char.isDigit)
      | u =>
        if (u.takeWhile Char.isDigit).isEmpty then none
        else some (c :: u.takeWhile Char.isDigit, u.dropWhile Char.isDigit)
    else some ([], cs)
  | [] => some ([], [])

/-- A JSON number lexeme (sign, integer with no leading zero, fraction,
exponent); returns the lexeme and the remaining input. -/
def parseNumberLex (cs : List Char) : Option (List Char × List Char) :=
  match cs with
  | '-' :: t =>
    (parseNumberLex t).map (fun p : List Char × List Char => ('-' :: p.1, p.2))
  | t =>
    if (t.takeWhile Char.isDigit).isEmpty then none
    else if 1 < (t.takeWhile Char.isDigit).length ∧
        (t.takeWhile Char.isDigit).head? = some '0' then none
    else
      match parseFrac (t.dropWhile Char.isDigit) with
      | none => none
      | some (fr, r1) =>
        match parseExp r1 with
        | none => none
        | some (ex, r2) => some (t.takeWhile Char.isDigit ++ fr ++ ex, r2)

/-- A pending composite value on the parser stack. -/
inductive JFrame where
  | arr (acc : List JVal)
  | obj (acc : List (List Char × JVal)) (key : List Char)

/-- The value parser, written as a fuelled stack machine: `none` in the
second argument means a value is expected next; `some v` means the value `v`
was just completed and the top stack frame decides how to continue.  Every
recursive call consumes at least one input character, so fuel
`input.length + 1` never runs out. -/
def jsonRun : Nat → Option JVal → List JFrame → List Char →
    Option (JVal × List Char)
  | 0, _, _, _ => none
  | fuel + 1, none, frames, cs =>
    match skipJWS cs with
    | [] => none
    | c :: rest =>
      if c == 'n' then
        if rest.take 3 == "ull".toList then
          jsonRun fuel (some .jnull) frames (rest.drop 3)
        else none
      else if c == 't' then
        if rest.take 3 == "rue".toList then
          jsonRun fuel (some (.jbool true)) frames (rest.drop 3)
        else none
      else if c == 'f' then
        if rest.take 4 == "alse".toList then
          jsonRun fuel (some (.jbool false)) frames (rest.drop 4)
        else none
      else if c == '"' then
        match parseStringBody rest with
        | some (s, r) => jsonRun fuel (some (.jstr s)) frames r
        | none => none
      else if c == '[' then
        match skipJWS rest with
        | ']' :: r => jsonRun fuel (some (.jarr [])) frames r
        | _ => jsonRun fuel none (.arr [] :: frames) rest
      else if c == Char.ofNat 123 then
        match skipJWS rest with
        | c2 :: r2 =>
          if c2 == Char.ofNat 125 then
            jsonRun fuel (some (.jobj [])) frames r2
          else if c2 == '"' then
            match parseStringBody r2 with
            | some (key, r3) =>
              match skipJWS r3 with
              | ':' :: r4 => jsonRun fuel none (.obj [] key :: frames) r4
              | _ => none
            | none => none
          else none
        | [] => none
      else
        match parseNumberLex (c :: rest) with
        | some (lex, r) => jsonRun fuel (some (.jnum lex)) frames r
        | none => none
  | fuel + 1, some v, frames, cs =>
    match frames with
    | [] => some (v, cs)
    | .arr acc :: fs =>
      match skipJWS cs with
      | ',' :: r => jsonRun fuel none (.arr (acc ++ [v]) :: fs) r
      | ']' :: r => jsonRun fuel (some (.jarr (acc ++ [v]))) fs r
      | _ => none
    | .obj acc key :: fs =>
      match skipJWS cs with
      | ',' :: r =>
        match skipJWS r with
        | '"' :: r2 =>
          match parseStringBody r2 with
          | some (k2, r3) =>
            match skipJWS r3 with
            | ':' :: r4 =>
              jsonRun fuel none (.obj (acc ++ [(key, v)]) k2 :: fs) r4
            | _ => none
          | none => none
        | _ => none
      | c :: r =>
        if c == Char.ofNat 125 then
          jsonRun fuel (some (.jobj (acc ++ [(key, v)]))) fs r
        else none
      | [] => none

/-- The model of `JSON.parse`: parse one value and require only whitespace
after it. -/
def jsonParse (cs : List Char) : Option JVal :=
  match jsonRun (cs.length + 1) none [] cs with
  | some (v, rest) => if (skipJWS rest).isEmpty then some v else none
  | none => none

/-- JS `data.toString().split("\n")`. -/
def splitOnChar (sep : Char) : List Char → List (List Char)
  | [] => [[]]
  | c :: rest =>
    if c == sep then [] :: splitOnChar sep rest
    else
      match splitOnChar sep rest with
      | f :: fs => (c :: f) :: fs
      | [] => [[c]]

/-- What the stdout loop does with one line. -/
inductive LineOutcome where
  | skippedBlank
  | handled (v : JVal)
  | logged

/-- One iteration of the stdout line loop: skip a blank line
(`if (!line.trim()) continue`); otherwise `JSON.parse` the line inside the
`try` and hand the value to `handlePythonMessage`; any exception — a parse
failure, or the `TypeError` the handler raises on the JSON value `null`
(`msg.type` on `null`) — is caught and the line is logged as a
`[Python Log]` diagnostic. -/
def processStdoutLine (line : List Char) : LineOutcome :=
  if (trimJS line).isEmpty then .skippedBlank
  else
    match jsonParse line with
    | some .jnull => .logged
    | some v => .handled v
    | none => .logged

/-- The whole `python.stdout.on("data")` callback on one chunk. -/
def handleStdoutData (data : List Char) : List LineOutcome :=
  (splitOnChar '\n' data).map processStdoutLine

/-- Did the loop log this line as a diagnostic? -/
def outcomeIsLogged : LineOutcome → Bool
  | .logged => true
  | _ => false

/-- The message handed to `handlePythonMessage`, when one was. -/
def outcomeHandledMsg : LineOutcome → Option JVal
  | .handled v => some v
  | _ => none

/-- The `type` field of a parsed message, when it is a string. -/
def msgTypeOf (v : JVal) : Option (List Char) :=
  match v with
  | .jobj fields =>
    match fields.find? (fun kv => kv.1 == "type".toList) with
    | some (_, .jstr s) => some s
    | _ => none
  | _ => none

/-- The message types `handlePythonMessage` actually dispatches on. -/
def recognizedTypes : List (List Char) :=
  ["status".toList, "progress".toList, "mp3_complete".toList,
    "error".toList]

/-- C8 counterexample: the stdout line `{"type":"bogus"}` parses as JSON but
is not a recognized message; contrary to the claim it is **not** logged as a
diagnostic line, and the message handler **is** invoked on it (where it
falls through all branches silently). -/
theorem C8_counterexample :
    outcomeIsLogged
      (processStdoutLine "\x7b\x22type\x22:\x22bogus\x22\x7d".toList) =
      false ∧
    (outcomeHandledMsg
        (processStdoutLine "\x7b\x22type\x22:\x22bogus\x22\x7d".toList)).bind
        msgTypeOf =
      some "bogus".toList ∧
    recognizedTypes.contains "bogus".toList = false := by
  refine ⟨rfl, rfl, rfl⟩

/-- C8 amended: a stdout line that fails `JSON.parse` is never handed to the
message handler, and (unless blank, in which case it is skipped) it is
logged as a diagnostic — so no unparsable input crashes the loop; but a line
that parses as JSON with an unrecognized `type` is handed to
`handlePythonMessage` (which silently ignores it) rather than logged.  The
loop is total: every line of every chunk yields exactly one outcome. -/
theorem C8_amended :
    (∀ line : List Char, jsonParse line = none →
      outcomeHandledMsg (processStdoutLine line) = none ∧
      (¬ (trimJS line).isEmpty = true → processStdoutLine line = .logged)) ∧
    (∀ data : List Char,
      (handleStdoutData data).length = (splitOnChar '\n' data).length) := by
  constructor
  · intro line hnone
    unfold processStdoutLine
    by_cases hb : (trimJS line).isEmpty = true
    · rw [if_pos hb]
      exact ⟨rfl, fun hc => absurd hb hc⟩
    · rw [if_neg hb, hnone]
      exact ⟨rfl, fun _ => rfl⟩
  · intro data
    unfold handleStdoutData
    rw [List.length_map]

/-- Witness for C8 amended at the unparsable line `not json`. -/
theorem C8_amended_witness :
    (jsonParse "not json".toList = none ∧
      ¬ (trimJS "not json".toList).isEmpty = true) ∧
    (outcomeHandledMsg (processStdoutLine "not json".toList) = none ∧
      processStdoutLine "not json".toList = .logged) :=
  ⟨⟨by rfl, by decide⟩,
    (C8_amended.1 "not json".toList (by rfl)).1,
    (C8_amended.1 "not json".toList (by rfl)).2 (by decide)⟩

/-! ## The processor message handler

`mcp_server.js` lines 122-133 (the `state` object), 162-201
(`handlePythonMessage`) and 218-232 (`combineMp3Parts`).  The four typed
message forms of the status bus (§4.6 of the spec) appear as `PyMsg`; absent
JSON fields are `none`.  The `state.jobs` `Map` is an association list; the
in-place mutation of a looked-up job object is modelled by rewriting the
entry under the message's `jobId` key.  Observable outputs — `broadcast`
calls, `console` logging, and the `combine_mp3` command written to the
processor's stdin — are collected in an `Effect` list. -/

/-- A combine job record (`state.jobs` entry). -/
structure Job where
  id : String
  jobType : String
  status : String
  totalParts : Nat
  completedParts : Nat
  percent : Nat
  phase : String
  detail : String
  partPaths : List String
  outputPath : String
  cleanupParts : Bool
deriving DecidableEq

/-- The mutable server state object. -/
structure ServerState where
  status : String
  current_text : String
  current_voice : String
  default_voice : String
  history : List HistItem
  jobs : List (String × Job)
deriving DecidableEq

/-- A parsed processor-to-server message. -/
inductive PyMsg where
  | status (state : String) (text : Option String)
  | progress (jobId : String) (percent : Option Nat) (phase : Option String)
      (detail : Option String)
  | mp3Complete (jobId : String)
  | error (message : String)
deriving DecidableEq

/-- An observable output of the handler. -/
inductive Effect where
  | broadcastStatus
  | broadcastProgress (jobId : String) (percent : Option Nat)
      (phase : Option String) (detail : Option String)
  | broadcastError (message : String)
  | logError (message : String)
  | combineCmd (jobId : String) (partPaths : List String)
      (outputPath : String) (cleanupParts : Bool)
deriving DecidableEq

/-- JS `state.jobs.get(jid)`. -/
def lookupJob (jobs : List (String × Job)) (jid : String) : Option Job :=
  (jobs.find? (fun p => p.1 == jid)).map (fun p => p.2)

/-- In-place mutation of the job object stored under `jid`. -/
def setJob (jobs : List (String × Job)) (jid : String) (job : Job) :
    List (String × Job) :=
  jobs.map (fun p => if p.1 == jid then (jid, job) else p)

/-- JS `Math.round((completedParts / totalParts) * 100)`, evaluated on exact
rationals (for `totalParts = 0` JS produces `NaN`; this model yields 0 —
combine jobs always have at least one part). -/
def jsRound100 (completed total : Nat) : Nat :=
  (200 * completed + total) / (2 * total)

/-- The job update performed by the `mp3_complete` branch:
`job.completedParts = (job.completedParts || 0) + 1;
job.percent = Math.round((job.completedParts / job.totalParts) * 100);`. -/
def mp3CompleteJob (job : Job) : Job :=
  { job with
      completedParts := job.completedParts + 1,
      percent := jsRound100 (job.completedParts + 1) job.totalParts }

/-- The detail string of the per-part progress broadcast:
`` `Part ${job.completedParts}/${job.totalParts}` ``. -/
def mp3CompleteDetail (job : Job) : String :=
  "Part " ++ toString (job.completedParts + 1) ++ "/" ++
    toString job.totalParts

/-- JS `combineMp3Parts(job)`: move the job to the combining phase, broadcast
a pinned 95% progress event, and write the `combine_mp3` command to the
processor. -/
def combineMp3Parts (s : ServerState) (job : Job) : ServerState × List Effect :=
  ({ s with
      jobs := setJob s.jobs job.id
                ({ job with phase := "combining", status := "combining" }) },
   [.broadcastProgress job.id (some 95) (some "combining")
      (some "Concatenating parts"),
    .combineCmd job.id job.partPaths job.outputPath job.cleanupParts])

/-- JS `handlePythonMessage(msg)`. -/
def handlePythonMessage (s : ServerState) (m : PyMsg) :
    ServerState × List Effect :=
  match m with
  | .status st txt =>
    ({ s with
        status := if st = "ready" then "idle" else st,
        current_text :=
          if st = "processing" then jsOrStr txt s.current_text else "" },
      [.broadcastStatus])
  | .progress jid pct ph det =>
    (match lookupJob s.jobs jid with
     | some job =>
       { s with
           jobs := setJob s.jobs jid
                     ({ job with
                         percent := pct.getD 0,
                         phase := jsOrStr ph job.phase,
                         detail := det.getD "" }) }
     | none => s,
     [.broadcastProgress jid pct ph det])
  | .mp3Complete jid =>
    match lookupJob s.jobs jid with
    | some job =>
      if job.jobType = "combine" then
        if job.totalParts ≤ job.completedParts + 1 then
          ((combineMp3Parts
              { s with jobs := setJob s.jobs jid (mp3CompleteJob job) }
              (mp3CompleteJob job)).1,
            .broadcastProgress jid (some (mp3CompleteJob job).percent)
                (some "generating") (some (mp3CompleteDetail job)) ::
              (combineMp3Parts
                { s with jobs := setJob s.jobs jid (mp3CompleteJob job) }
                (mp3CompleteJob job)).2)
        else
          ({ s with jobs := setJob s.jobs jid (mp3CompleteJob job) },
            [.broadcastProgress jid (some (mp3CompleteJob job).percent)
              (some "generating") (some (mp3CompleteDetail job))])
      else (s, [])
    | none => (s, [])
  | .error msg =>
    (s, [.logError msg, .broadcastError msg])

/-- Feed a sequence of processor messages through the handler, collecting
all effects in order. -/
def runMsgs (s : ServerState) (ms : List PyMsg) : ServerState × List Effect :=
  ms.foldl
    (fun acc m =>
      ((handlePythonMessage acc.1 m).1, acc.2 ++ (handlePythonMessage acc.1 m).2))
    (s, [])

/-- How many `combine_mp3` commands for job `jid` a list of effects holds. -/
def countCombineCmds (effs : List Effect) (jid : String) : Nat :=
  (effs.filter (fun e =>
    match e with
    | .combineCmd j _ _ _ => j == jid
    | _ => false)).length

/-- The percent values of the progress broadcasts, in order. -/
def progressPercents (effs : List Effect) : List Nat :=
  effs.filterMap (fun e =>
    match e with
    | .broadcastProgress _ (some p) _ _ => some p
    | _ => none)

/-- A combine job as registered by `speak_mp3_combined`, with the given
counts and phase; used as the concrete test fixture. -/
def combineJobFixture (total completed : Nat) (phase st : String) : Job :=
  { id := "j", jobType := "combine", status := st, totalParts := total,
    completedParts := completed, percent := jsRound100 completed total,
    phase := phase, detail := "",
    partPaths := ["/app/data/mp3/x-part-001.mp3"],
    outputPath := "/app/data/mp3/x.mp3", cleanupParts := true }

/-- A server state holding exactly the given job under its id. -/
def stateWithJob (job : Job) : ServerState :=
  { status := "idle", current_text := "", current_voice := "af_heart",
    default_voice := "af_heart", history := [], jobs := [(job.id, job)] }

theorem lookupJob_set (js : List (String × Job)) (jid : String) (j0 job : Job)
    (h : lookupJob js jid = some j0) :
    lookupJob (setJob js jid job) jid = some job := by
  induction js with
  | nil => simp [lookupJob] at h
  | cons a tl ih =>
    by_cases hp : (a.1 == jid) = true
    · unfold lookupJob setJob
      rw [List.map_cons, if_pos hp, List.find?_cons_of_pos _ (by simp)]
      simp
    · unfold lookupJob setJob
      unfold lookupJob at h
      rw [List.map_cons, if_neg hp,
        List.find?_cons_of_neg _ (by simpa using hp)]
      rw [List.find?_cons_of_neg _ (by simpa using hp)] at h
      exact ih h

theorem jsRound100_mono (c d N : Nat) (h : c ≤ d) :
    jsRound100 c N ≤ jsRound100 d N := by
  unfold jsRound100
  exact Nat.div_le_div_right (by omega)

theorem jsRound100_self (N : Nat) (h : 0 < N) : jsRound100 N N = 100 := by
  unfold jsRound100
  have h1 : 200 * N + N = N + 2 * N * 100 := by ring
  rw [h1, Nat.add_mul_div_left _ _ (by omega : 0 < 2 * N),
    Nat.div_eq_of_lt (by omega)]

/-- C1 counterexample: a combine job with `total_parts = 1`; the first
`mp3_complete` event triggers concatenation, and a duplicate `mp3_complete`
event for the then already-finished job triggers it **again** — two
`combine_mp3` commands are sent, refuting the claimed exactly-once /
idempotency invariant. -/
theorem C1_counterexample :
    countCombineCmds
      (runMsgs (stateWithJob (combineJobFixture 1 0 "generating" "generating"))
        [.mp3Complete "j", .mp3Complete "j"]).2 "j" = 2 ∧
    ¬ countCombineCmds
      (runMsgs (stateWithJob (combineJobFixture 1 0 "generating" "generating"))
        [.mp3Complete "j", .mp3Complete "j"]).2 "j" = 1 := by
  refine ⟨by rfl, ?_⟩
  intro hcon
  rw [show countCombineCmds
      (runMsgs (stateWithJob (combineJobFixture 1 0 "generating" "generating"))
        [.mp3Complete "j", .mp3Complete "j"]).2 "j" = 2 from rfl] at hcon
  exact absurd hcon (by decide)

/-- C1 amended: a `combine_mp3` command is sent on **every** `mp3_complete`
event whose incremented completion count reaches or exceeds `total_parts` —
once at the instant the count first reaches `total_parts`, and once more on
every duplicate event after that (the handler has no already-finished
guard); no command is sent below the threshold or for an unknown job. -/
theorem C1_amended :
    (∀ (s : ServerState) (jid : String) (job : Job),
      lookupJob s.jobs jid = some job → job.id = jid →
      job.jobType = "combine" →
      countCombineCmds (handlePythonMessage s (.mp3Complete jid)).2 jid =
        (if job.totalParts ≤ job.completedParts + 1 then 1 else 0)) ∧
    (∀ (s : ServerState) (jid : String),
      lookupJob s.jobs jid = none →
      (handlePythonMessage s (.mp3Complete jid)).2 = []) := by
  constructor
  · intro s jid job hlook hid htype
    simp only [handlePythonMessage, hlook]
    rw [if_pos htype]
    by_cases hc : job.totalParts ≤ job.completedParts + 1
    · rw [if_pos hc, if_pos hc]
      unfold combineMp3Parts countCombineCmds
      simp [mp3CompleteJob, hid]
    · rw [if_neg hc, if_neg hc]
      unfold countCombineCmds
      simp
  · intro s jid hlook
    simp only [handlePythonMessage, hlook]

/-- Witness for C1 amended: one more completion on a half-done 2-part job
sends the single combine command. -/
theorem C1_amended_witness :
    (lookupJob (stateWithJob (combineJobFixture 2 1 "generating" "generating")).jobs
        "j" = some (combineJobFixture 2 1 "generating" "generating") ∧
      (combineJobFixture 2 1 "generating" "generating").id = "j" ∧
      (combineJobFixture 2 1 "generating" "generating").jobType = "combine") ∧
    countCombineCmds
      (handlePythonMessage (stateWithJob (combineJobFixture 2 1 "generating" "generating"))
        (.mp3Complete "j")).2 "j" =
      (if (combineJobFixture 2 1 "generating" "generating").totalParts ≤
          (combineJobFixture 2 1 "generating" "generating").completedParts + 1
        then 1 else 0) :=
  ⟨⟨by rfl, by rfl, by rfl⟩,
    C1_amended.1 (stateWithJob (combineJobFixture 2 1 "generating" "generating"))
      "j" (combineJobFixture 2 1 "generating" "generating")
      (by rfl) (by rfl) (by rfl)⟩

/-- Is a percent sequence non-decreasing? -/
def percentsNonDecreasing : List Nat → Bool
  | a :: b :: t => decide (a ≤ b) && percentsNonDecreasing (b :: t)
  | _ => true

/-- C2 counterexample: a combine job with `total_parts = 1`; the single
completion event broadcasts percent 100 (phase still `generating`,
concatenation not yet even requested) and then the pinned 95 of the
combining transition — the broadcast percent sequence `[100, 95]` decreases,
and the stored job percent is 100 while the job is still `combining`, i.e.
before concatenation has succeeded. -/
theorem C2_counterexample :
    progressPercents
      (runMsgs (stateWithJob (combineJobFixture 1 0 "generating" "generating"))
        [.mp3Complete "j"]).2 = [100, 95] ∧
    percentsNonDecreasing
      (progressPercents
        (runMsgs (stateWithJob (combineJobFixture 1 0 "generating" "generating"))
          [.mp3Complete "j"]).2) = false ∧
    (lookupJob
        (runMsgs (stateWithJob (combineJobFixture 1 0 "generating" "generating"))
          [.mp3Complete "j"]).1.jobs "j").map Job.percent = some 100 ∧
    (lookupJob
        (runMsgs (stateWithJob (combineJobFixture 1 0 "generating" "generating"))
          [.mp3Complete "j"]).1.jobs "j").map Job.phase = some "combining" := by
  refine ⟨by rfl, by rfl, by rfl, by rfl⟩

/-- C2 amended: on each `mp3_complete` event for a combine job the stored
percent becomes `Math.round(100 * (completed+1) / total)` — a value
monotone in the completion count that equals 100 as soon as the count
reaches `total_parts`, i.e. **before** concatenation has succeeded; at that
same instant the phase flips to `combining` (and the transition broadcasts a
pinned 95, below the just-broadcast 100). -/
theorem C2_amended :
    (∀ (s : ServerState) (jid : String) (job : Job),
      lookupJob s.jobs jid = some job → job.id = jid →
      job.jobType = "combine" →
      ∃ job2,
        lookupJob (handlePythonMessage s (.mp3Complete jid)).1.jobs jid =
          some job2 ∧
        job2.completedParts = job.completedParts + 1 ∧
        job2.percent = jsRound100 (job.completedParts + 1) job.totalParts ∧
        job2.phase = (if job.totalParts ≤ job.completedParts + 1
          then "combining" else job.phase)) ∧
    (∀ c d N : Nat, c ≤ d → jsRound100 c N ≤ jsRound100 d N) ∧
    (∀ N : Nat, 0 < N → jsRound100 N N = 100) := by
  refine ⟨?_, jsRound100_mono, jsRound100_self⟩
  intro s jid job hlook hid htype
  simp only [handlePythonMessage, hlook]
  rw [if_pos htype]
  by_cases hc : job.totalParts ≤ job.completedParts + 1
  · rw [if_pos hc]
    refine ⟨{ mp3CompleteJob job with
        phase := "combining", status := "combining" }, ?_, by rfl, by rfl, ?_⟩
    · unfold combineMp3Parts
      dsimp only
      have h1 : lookupJob (setJob s.jobs jid (mp3CompleteJob job)) jid =
          some (mp3CompleteJob job) := lookupJob_set _ _ _ _ hlook
      have hid2 : (mp3CompleteJob job).id = jid := hid
      rw [hid2]
      exact lookupJob_set _ _ _ _ h1
    · rw [if_pos hc]
  · rw [if_neg hc]
    refine ⟨mp3CompleteJob job, ?_, by rfl, by rfl, ?_⟩
    · exact lookupJob_set _ _ _ _ hlook
    · rw [if_neg hc]
      rfl

/-- Witness for C2 amended at the same half-done 2-part fixture. -/
theorem C2_amended_witness :
    (lookupJob (stateWithJob (combineJobFixture 2 1 "generating" "generating")).jobs
        "j" = some (combineJobFixture 2 1 "generating" "generating") ∧
      (combineJobFixture 2 1 "generating" "generating").id = "j" ∧
      (combineJobFixture 2 1 "generating" "generating").jobType = "combine" ∧
      (1 : Nat) ≤ 2 ∧ (0 : Nat) < 2) ∧
    ((∃ job2,
      lookupJob
          (handlePythonMessage (stateWithJob (combineJobFixture 2 1 "generating" "generating"))
            (.mp3Complete "j")).1.jobs "j" = some job2 ∧
      job2.completedParts = (combineJobFixture 2 1 "generating" "generating").completedParts + 1 ∧
      job2.percent = jsRound100
        ((combineJobFixture 2 1 "generating" "generating").completedParts + 1)
        (combineJobFixture 2 1 "generating" "generating").totalParts ∧
      job2.phase = (if (combineJobFixture 2 1 "generating" "generating").totalParts ≤
          (combineJobFixture 2 1 "generating" "generating").completedParts + 1
        then "combining"
        else (combineJobFixture 2 1 "generating" "generating").phase)) ∧
    jsRound100 1 2 ≤ jsRound100 2 2 ∧ jsRound100 2 2 = 100) :=
  ⟨⟨by rfl, by rfl, by rfl, by decide, by decide⟩,
    C2_amended.1 (stateWithJob (combineJobFixture 2 1 "generating" "generating"))
      "j" (combineJobFixture 2 1 "generating" "generating") (by rfl) (by rfl)
      (by rfl),
    C2_amended.2.1 1 2 2 (by decide),
    C2_amended.2.2 2 (by decide)⟩

/-- C3 counterexample: a processor `error` message for a combine job with one
of two parts already done leaves the whole server state untouched — the
job's phase stays `generating` and is **not** set to `error` as the claim
requires (the completed parts are indeed retained and no concatenation is
attempted, but only because the handler ignores jobs entirely on errors). -/
theorem C3_counterexample :
    (handlePythonMessage (stateWithJob (combineJobFixture 2 1 "generating" "generating"))
        (.error "synthesis failed")).1 =
      stateWithJob (combineJobFixture 2 1 "generating" "generating") ∧
    (lookupJob
        (handlePythonMessage (stateWithJob (combineJobFixture 2 1 "generating" "generating"))
          (.error "synthesis failed")).1.jobs "j").map Job.phase =
      some "generating" ∧
    ("generating" : String) ≠ "error" ∧
    (handlePythonMessage (stateWithJob (combineJobFixture 2 1 "generating" "generating"))
        (.error "synthesis failed")).2 =
      [.logError "synthesis failed", .broadcastError "synthesis failed"] := by
  refine ⟨by rfl, by rfl, by decide, by rfl⟩

/-- C3 amended: on a processor-reported synthesis error the server only logs
and broadcasts the error; the state — in particular every job's phase — is
left completely unchanged (no job is moved to an `error` phase), no
concatenation command is emitted by the error event, and the completed part
files are retained (nothing is deleted). -/
theorem C3_amended :
    ∀ (s : ServerState) (msg : String),
      handlePythonMessage s (.error msg) =
        (s, [.logError msg, .broadcastError msg]) := by
  intro s msg
  rfl

/-- C10. The published status never takes the raw value `ready`: the handler
maps a `ready` status message to the public value `idle` (and no message can
set the status to `ready` when it was not already), and any status message
whose state is not `processing` resets `current_text` to the empty
string. -/
theorem C10_status_invariant :
    (∀ (s : ServerState) (m : PyMsg), s.status ≠ "ready" →
      (handlePythonMessage s m).1.status ≠ "ready") ∧
    (∀ (s : ServerState) (st : String) (txt : Option String),
      st ≠ "processing" →
      (handlePythonMessage s (.status st txt)).1.current_text = "") ∧
    (∀ (s : ServerState) (txt : Option String),
      (handlePythonMessage s (.status "ready" txt)).1.status = "idle") := by
  refine ⟨?_, ?_, ?_⟩
  · intro s m h
    cases m with
    | status st txt =>
      simp only [handlePythonMessage]
      by_cases hst : st = "ready"
      · rw [if_pos hst]
        decide
      · rw [if_neg hst]
        exact hst
    | progress jid pct ph det =>
      simp only [handlePythonMessage]
      cases hl : lookupJob s.jobs jid <;> dsimp only <;> exact h
    | mp3Complete jid =>
      simp only [handlePythonMessage]
      cases hl : lookupJob s.jobs jid with
      | none => exact h
      | some job =>
        dsimp only
        by_cases ht : job.jobType = "combine"
        · rw [if_pos ht]
          by_cases hc : job.totalParts ≤ job.completedParts + 1
          · rw [if_pos hc]
            unfold combineMp3Parts
            exact h
          · rw [if_neg hc]
            exact h
        · rw [if_neg ht]
          exact h
    | error msg => exact h
  · intro s st txt hst
    simp only [handlePythonMessage]
    rw [if_neg hst]
  · intro s txt
    simp [handlePythonMessage]

/-- Witness for C10 at a concrete state and messages. -/
theorem C10_status_invariant_witness :
    ((stateWithJob (combineJobFixture 2 1 "generating" "generating")).status ≠
        "ready" ∧ ("done" : String) ≠ "processing") ∧
    ((handlePythonMessage (stateWithJob (combineJobFixture 2 1 "generating" "generating"))
        (.status "done" none)).1.status ≠ "ready" ∧
      (handlePythonMessage (stateWithJob (combineJobFixture 2 1 "generating" "generating"))
        (.status "done" none)).1.current_text = "" ∧
      (handlePythonMessage (stateWithJob (combineJobFixture 2 1 "generating" "generating"))
        (.status "ready" none)).1.status = "idle") :=
  ⟨⟨by decide, by decide⟩,
    C10_status_invariant.1 (stateWithJob (combineJobFixture 2 1 "generating" "generating"))
      (.status "done" none) (by decide),
    C10_status_invariant.2.1 (stateWithJob (combineJobFixture 2 1 "generating" "generating"))
      "done" none (by decide),
    C10_status_invariant.2.2 (stateWithJob (combineJobFixture 2 1 "generating" "generating"))
      none⟩
